import Mathlib

/-!
A verification development for the undo/redo command-history engine of a
spreadsheet-style data grid (the `useDataGridUndoRedo` hook).  The engine is
embedded shallowly: rows are records with a stable `id` and an association
list of cells, commands (`HistoryEntry`) carry their `undo`/`redo` replay
functions closed over the data captured at record time, and the hook's
mutable refs (undo/redo stacks, pending-edit map, toast output) are combined
into an explicit `GridState` threaded through pure transition functions.
-/

namespace DataGridUndoRedo

/-- A data row: a stable identity (`getRowId row`) plus the cell contents,
modelled as an association list from column id to value.  Updating a cell
mirrors the JS object spread `\x7b...row, [columnId]: value\x7d`: an existing
key keeps its position, a new key is appended. -/
structure Row (V : Type) where
  id : String
  cells : List (String × V)
deriving DecidableEq, Repr

/-- Replace the value of the first binding of key `k`, or append the binding
when `k` is absent (JS object property-set semantics). -/
def updAssoc {β : Type} (l : List (String × β)) (k : String) (v : β) :
    List (String × β) :=
  match l with
  | [] => [(k, v)]
  | (k', v') :: t => if k' = k then (k, v) :: t else (k', v') :: updAssoc t k v

/-- `\x7b...row, [columnId]: value\x7d` -/
def setCell {V : Type} (r : Row V) (c : String) (v : V) : Row V :=
  ⟨r.id, updAssoc r.cells c v⟩

/-- Read a cell value (`row[columnId]`); `none` when the column is absent. -/
def getCell {V : Type} (r : Row V) (c : String) : Option V :=
  (r.cells.find? (fun p => p.1 == c)).map Prod.snd

/-- `UndoRedoCellUpdate`: one tracked single-cell edit. -/
structure CellUpdate (V : Type) where
  rowId : String
  columnId : String
  previousValue : V
  newValue : V
deriving DecidableEq, Repr

/-- `buildIndexById`: the row-identity resolver.  The source fills a
`Map` with `map.set(getRowId(row), i)` while walking the array, so a later
row with the same id overwrites an earlier one; accordingly this returns the
index of the *last* row carrying `id`, or `none`. -/
def indexById {V : Type} (data : List (Row V)) (id : String) : Option Nat :=
  match data with
  | [] => none
  | r :: t =>
    match indexById t id with
    | some i => some (i + 1)
    | none => if r.id = id then some 0 else none

/-- The tag of a `HistoryEntry` (`"cells_update" | "rows_add" | "rows_delete"`). -/
inductive Variant : Type
  | cells_update
  | rows_add
  | rows_delete
deriving DecidableEq, Repr

/-- `HistoryEntry<TData>`: one Command, carrying its replay closures. -/
structure HistoryEntry (V : Type) where
  variant : Variant
  count : Nat
  timestamp : Nat
  undo : List (Row V) → List (Row V)
  redo : List (Row V) → List (Row V)

/-- One iteration of the replay loop in the `cells_update` closures: look the
row index up in the map built from the array the closure was handed
(`currentData`), then overwrite one cell of the working copy `nd`.  `sel`
selects `previousValue` (undo) or `newValue` (redo). -/
def replayStep {V : Type} (currentData : List (Row V)) (sel : CellUpdate V → V)
    (nd : List (Row V)) (u : CellUpdate V) : List (Row V) :=
  match indexById currentData u.rowId with
  | none => nd
  | some i =>
    match nd[i]? with
    | none => nd
    | some row => nd.set i (setCell row u.columnId (sel u))

/-- The body of the `cells_update` `undo`/`redo` closures: copy the array,
then write `sel u` into the cell of every update whose row still exists. -/
def replayCells {V : Type} (sel : CellUpdate V → V) (updates : List (CellUpdate V))
    (currentData : List (Row V)) : List (Row V) :=
  updates.foldl (replayStep currentData sel) currentData

/-- The `cells_update` entry materialized by `flushPendingUpdates`. -/
def mkCellsUpdateEntry {V : Type} (updates : List (CellUpdate V)) (ts : Nat) :
    HistoryEntry V where
  variant := .cells_update
  count := updates.length
  timestamp := ts
  undo := replayCells (fun u => u.previousValue) updates
  redo := replayCells (fun u => u.newValue) updates

/-- Splice out one element per index, indices already sorted descending so
earlier removals do not shift later ones (`newData.splice(idx, 1)`). -/
def removeIndicesDesc {V : Type} (data : List (Row V)) (idxs : List Nat) :
    List (Row V) :=
  idxs.foldl List.eraseIdx data

/-- Shared body of `rows_add.undo` and `rows_delete.redo`: resolve the
captured row ids against the current array, drop the ids that no longer
exist, sort the surviving indices descending and splice them out. -/
def removeRows {V : Type} (rowIds : List String) (currentData : List (Row V)) :
    List (Row V) :=
  let indicesToRemove := rowIds.filterMap (indexById currentData)
  removeIndicesDesc currentData (indicesToRemove.insertionSort (· ≥ ·))

/-- The entry recorded by `trackRowsAdd`. -/
def mkRowsAddEntry {V : Type} (rows : List (Row V)) (ts : Nat) : HistoryEntry V where
  variant := .rows_add
  count := rows.length
  timestamp := ts
  undo := removeRows (rows.map Row.id)
  redo := fun currentData => currentData ++ rows

/-- The entry recorded by `trackRowsDelete`. -/
def mkRowsDeleteEntry {V : Type} (rows : List (Row V)) (ts : Nat) : HistoryEntry V where
  variant := .rows_delete
  count := rows.length
  timestamp := ts
  undo := fun currentData => currentData ++ rows
  redo := removeRows (rows.map Row.id)

/-- `getPendingKey(rowId, columnId)`. -/
def pendingKey (rowId columnId : String) : String :=
  rowId ++ "\x00" ++ columnId

/-- The whole observable state of one hook instance: the host-visible data
array, the store state (`undoStack`, `redoStack`, `hasPendingChanges`), the
batcher's pending-update map (insertion-ordered, like a JS `Map`), a counter
of listener notifications, and the configuration props. -/
structure GridState (V : Type) where
  data : List (Row V)
  undoStack : List (HistoryEntry V)
  redoStack : List (HistoryEntry V)
  hasPendingChanges : Bool
  pending : List (String × CellUpdate V)
  notifyCount : Nat
  maxHistory : Nat
  enabled : Bool

/-- `store.notify()`: run every subscribed listener once. -/
def notify {V : Type} (s : GridState V) : GridState V :=
  { s with notifyCount := s.notifyCount + 1 }

/-- `store.push` on the undo stack alone: append, then `shift()` one entry
off the front when the length exceeds `maxHistory`. -/
def pushStack {V : Type} (u : List (HistoryEntry V)) (mh : Nat)
    (e : HistoryEntry V) : List (HistoryEntry V) :=
  let u' := u ++ [e]
  if mh < u'.length then u'.tail else u'

/-- `store.push(entry)`. -/
def push {V : Type} (s : GridState V) (e : HistoryEntry V) : GridState V :=
  notify { s with
    undoStack := pushStack s.undoStack s.maxHistory e
    redoStack := []
    hasPendingChanges := false }

/-- `store.undo()`: the returned entry (or `null`) paired with the new state. -/
def storeUndo {V : Type} (s : GridState V) :
    Option (HistoryEntry V) × GridState V :=
  match s.undoStack.getLast? with
  | none => (none, s)
  | some e =>
    (some e, notify { s with
      undoStack := s.undoStack.dropLast
      redoStack := s.redoStack ++ [e] })

/-- `store.redo()`. -/
def storeRedo {V : Type} (s : GridState V) :
    Option (HistoryEntry V) × GridState V :=
  match s.redoStack.getLast? with
  | none => (none, s)
  | some e =>
    (some e, notify { s with
      undoStack := s.undoStack ++ [e]
      redoStack := s.redoStack.dropLast })

/-- `store.clear()`. -/
def storeClear {V : Type} (s : GridState V) : GridState V :=
  notify { s with undoStack := [], redoStack := [], hasPendingChanges := false }

/-- `store.setPendingChanges(value)`: no-op when the flag already has the
requested value, otherwise update and notify. -/
def setPendingChanges {V : Type} (s : GridState V) (value : Bool) : GridState V :=
  if s.hasPendingChanges = value then s
  else notify { s with hasPendingChanges := value }

/-- The `canUndo` selector: `state.undoStack.length > 0 || state.hasPendingChanges`. -/
def canUndo {V : Type} (s : GridState V) : Bool :=
  decide (0 < s.undoStack.length) || s.hasPendingChanges

/-- The `canRedo` selector: `state.redoStack.length > 0`. -/
def canRedo {V : Type} (s : GridState V) : Bool :=
  decide (0 < s.redoStack.length)

/-- Merging one edit into the pending map: a key seen before keeps its
original `previousValue` (and its position in the map) while the rest of the
update is overwritten; a new key is appended. -/
def insertPending {V : Type} (p : List (String × CellUpdate V))
    (u : CellUpdate V) : List (String × CellUpdate V) :=
  let key := pendingKey u.rowId u.columnId
  match p.lookup key with
  | some existing => updAssoc p key { u with previousValue := existing.previousValue }
  | none => p ++ [(key, u)]

/-- `trackCellsUpdate(updates)`: merge every edit into the pending map and
set the pending flag.  (The debounce timer it also restarts is represented
by the separate `flush` transition below.) -/
def trackCellsUpdate {V : Type} (s : GridState V)
    (updates : List (CellUpdate V)) : GridState V :=
  if !s.enabled || updates.isEmpty then s
  else
    setPendingChanges
      { s with pending := updates.foldl insertPending s.pending } true

/-- `flushPendingUpdates()`: nothing to do when the map is empty; otherwise
snapshot the pending values in insertion order, clear the map, and push the
materialized `cells_update` entry. -/
def flush {V : Type} (s : GridState V) (ts : Nat) : GridState V :=
  if s.pending.isEmpty then s
  else
    push { s with pending := [] }
      (mkCellsUpdateEntry (s.pending.map Prod.snd) ts)

/-- The toast label: `cells_update` counts cells, the row variants count rows,
with an `s` appended unless the count is exactly one. -/
def entryLabel {V : Type} (e : HistoryEntry V) : String :=
  match e.variant with
  | .cells_update => "cell" ++ (if e.count != 1 then "s" else "")
  | _ => "row" ++ (if e.count != 1 then "s" else "")

/-- `toast.success` message for an applied entry, e.g. `"Undo: 2 rows"`. -/
def toastMsg {V : Type} (kind : String) (e : HistoryEntry V) : String :=
  kind ++ ": " ++ toString e.count ++ " " ++ entryLabel e

/-- `onUndo()`: when enabled, flush any pending batch, pop the store's undo
side, apply the entry's `undo` to the current data, hand the result to
`onDataChange`, and emit the confirmation toast (returned as `some msg`). -/
def onUndo {V : Type} (s : GridState V) (ts : Nat) :
    GridState V × Option String :=
  if !s.enabled then (s, none)
  else
    let s1 := if s.pending.isEmpty then s else flush s ts
    match storeUndo s1 with
    | (none, s2) => (s2, none)
    | (some e, s2) => ({ s2 with data := e.undo s2.data }, some (toastMsg "Undo" e))

/-- `onRedo()`: like `onUndo` but popping the redo side and with no flush. -/
def onRedo {V : Type} (s : GridState V) : GridState V × Option String :=
  if !s.enabled then (s, none)
  else
    match storeRedo s with
    | (none, s2) => (s2, none)
    | (some e, s2) => ({ s2 with data := e.redo s2.data }, some (toastMsg "Redo" e))

/-- `onClear()`: cancel the timer, drop the pending edits, clear the store. -/
def onClear {V : Type} (s : GridState V) : GridState V :=
  storeClear { s with pending := [] }

/-- `trackRowsAdd(rows)`: flush pending cell edits first, then push the
`rows_add` entry closed over the exact rows and their ids. -/
def trackRowsAdd {V : Type} (s : GridState V) (rows : List (Row V)) (ts : Nat) :
    GridState V :=
  if !s.enabled || rows.isEmpty then s
  else
    let s1 := if s.pending.isEmpty then s else flush s ts
    push s1 (mkRowsAddEntry rows ts)

/-- `trackRowsDelete(rows)`. -/
def trackRowsDelete {V : Type} (s : GridState V) (rows : List (Row V)) (ts : Nat) :
    GridState V :=
  if !s.enabled || rows.isEmpty then s
  else
    let s1 := if s.pending.isEmpty then s else flush s ts
    push s1 (mkRowsDeleteEntry rows ts)

/-- The host replacing the data array (its `onDataChange` side of the world,
or any independent mutation of the grid data). -/
def setData {V : Type} (s : GridState V) (d : List (Row V)) : GridState V :=
  { s with data := d }

/-- The freshly mounted hook: empty stacks, no pending edits, flag down. -/
def initState {V : Type} (d : List (Row V)) (mh : Nat) (en : Bool) : GridState V :=
  { data := d, undoStack := [], redoStack := [], hasPendingChanges := false,
    pending := [], notifyCount := 0, maxHistory := mh, enabled := en }

/-- States reachable through the hook's public surface (plus the debounce
timer firing, which runs `flushPendingUpdates`, and the host replacing the
data array). -/
inductive Reachable {V : Type} : GridState V → Prop
  | init (d : List (Row V)) (mh : Nat) (en : Bool) : Reachable (initState d mh en)
  | track {s} (us : List (CellUpdate V)) : Reachable s → Reachable (trackCellsUpdate s us)
  | timer {s} (ts : Nat) : Reachable s → Reachable (flush s ts)
  | rowsAdd {s} (rows : List (Row V)) (ts : Nat) : Reachable s → Reachable (trackRowsAdd s rows ts)
  | rowsDelete {s} (rows : List (Row V)) (ts : Nat) : Reachable s → Reachable (trackRowsDelete s rows ts)
  | undoStep {s} (ts : Nat) : Reachable s → Reachable (onUndo s ts).1
  | redoStep {s} : Reachable s → Reachable (onRedo s).1
  | clearStep {s} : Reachable s → Reachable (onClear s)
  | dataStep {s} (d : List (Row V)) : Reachable s → Reachable (setData s d)

/-- The cell value of the row with identity `id`, or `none` when no such row
(or no such column) exists.  This is the observation through which two data
arrays are compared "by row id and cell values". -/
def cellAt {V : Type} (d : List (Row V)) (id c : String) : Option V :=
  (d.find? (fun r => r.id == id)).bind (fun r => getCell r c)

/-- Structural equality of two data arrays: the same collection of row ids,
and for every row id the same value in every cell. -/
def StructEq {V : Type} (d1 d2 : List (Row V)) : Prop :=
  (d1.map Row.id).Perm (d2.map Row.id) ∧ ∀ id c, cellAt d1 id c = cellAt d2 id c

/-! ### Small facts about the store transitions -/

theorem storeUndo_of_concat {V : Type} (s : GridState V) (us : List (HistoryEntry V))
    (e : HistoryEntry V) (h : s.undoStack = us ++ [e]) :
    storeUndo s = (some e, { s with
      undoStack := us
      redoStack := s.redoStack ++ [e]
      notifyCount := s.notifyCount + 1 }) := by
  simp [storeUndo, h, notify, List.dropLast_concat]

theorem storeRedo_of_concat {V : Type} (s : GridState V) (rs : List (HistoryEntry V))
    (e : HistoryEntry V) (h : s.redoStack = rs ++ [e]) :
    storeRedo s = (some e, { s with
      undoStack := s.undoStack ++ [e]
      redoStack := rs
      notifyCount := s.notifyCount + 1 }) := by
  simp [storeRedo, h, notify, List.dropLast_concat]

theorem storeUndo_of_nil {V : Type} (s : GridState V) (h : s.undoStack = []) :
    storeUndo s = (none, s) := by
  simp [storeUndo, h]

theorem storeRedo_of_nil {V : Type} (s : GridState V) (h : s.redoStack = []) :
    storeRedo s = (none, s) := by
  simp [storeRedo, h]

theorem storeUndo_snd_undoStack {V : Type} (s : GridState V) :
    (storeUndo s).2.undoStack = s.undoStack.dropLast := by
  rcases h : s.undoStack.getLast? with _ | e
  · rw [List.getLast?_eq_none_iff] at h
    simp [storeUndo, h]
  · rcases List.eq_nil_or_concat s.undoStack with h0 | ⟨us, e', h0⟩
    · simp [h0] at h
    · rw [List.concat_eq_append] at h0
      rw [storeUndo_of_concat s us e' h0]
      simp [h0, List.dropLast_concat]

theorem storeUndo_snd_same {V : Type} (s : GridState V) :
    (storeUndo s).2.hasPendingChanges = s.hasPendingChanges ∧
    (storeUndo s).2.pending = s.pending ∧
    (storeUndo s).2.enabled = s.enabled ∧
    (storeUndo s).2.maxHistory = s.maxHistory ∧
    (storeUndo s).2.data = s.data := by
  unfold storeUndo
  rcases h : s.undoStack.getLast? with _ | e <;> simp [notify]

theorem storeRedo_snd_same {V : Type} (s : GridState V) :
    (storeRedo s).2.hasPendingChanges = s.hasPendingChanges ∧
    (storeRedo s).2.pending = s.pending ∧
    (storeRedo s).2.enabled = s.enabled ∧
    (storeRedo s).2.maxHistory = s.maxHistory ∧
    (storeRedo s).2.data = s.data := by
  unfold storeRedo
  rcases h : s.redoStack.getLast? with _ | e <;> simp [notify]

section SanityChecks

private def rA : Row Nat := ⟨"a", [("x", 1), ("y", 2)]⟩
private def rB : Row Nat := ⟨"b", [("x", 3)]⟩

example : indexById [rA, rB] "b" = some 1 := by decide
example : indexById [rA, rB] "c" = none := by decide
example : setCell rA "x" 9 = ⟨"a", [("x", 9), ("y", 2)]⟩ := by decide
example : setCell rA "z" 9 = ⟨"a", [("x", 1), ("y", 2), ("z", 9)]⟩ := by decide
example : getCell rA "y" = some 2 := by decide
example :
    (mkRowsDeleteEntry [rB] 0).undo [rA] = [rA, rB] := by
  decide
example :
    (mkRowsAddEntry [rB] 0).undo [rB, rA] = [rA] := by
  decide
example :
    replayCells (fun u => u.newValue) [⟨"a", "x", 1, 7⟩] [rA, rB]
      = [⟨"a", [("x", 7), ("y", 2)]⟩, rB] := by
  decide

end SanityChecks

/-! ### Concrete fixtures used by witnesses and counterexamples -/

private def eFix : HistoryEntry Nat := mkRowsAddEntry [⟨"a", [("x", 1)]⟩] 0

private def sEmptyFix : GridState Nat := initState [] 100 true

private def sOneFix : GridState Nat :=
  { initState [] 100 true with undoStack := [eFix], redoStack := [eFix] }

/-- C6: `undo()` (and symmetrically `redo()`) on an empty respective stack
returns `null`, leaves the whole store state unchanged and fires no listener
notification; on a non-empty stack it pops the top entry, pushes it onto the
opposite stack, fires one notification and returns that entry. -/
theorem undo_redo_null_or_pop (V : Type) (s : GridState V) :
    (s.undoStack = [] → storeUndo s = (none, s)) ∧
    (∀ us e, s.undoStack = us ++ [e] →
      storeUndo s = (some e, { s with
        undoStack := us
        redoStack := s.redoStack ++ [e]
        notifyCount := s.notifyCount + 1 })) ∧
    (s.redoStack = [] → storeRedo s = (none, s)) ∧
    (∀ rs e, s.redoStack = rs ++ [e] →
      storeRedo s = (some e, { s with
        undoStack := s.undoStack ++ [e]
        redoStack := rs
        notifyCount := s.notifyCount + 1 })) :=
  ⟨storeUndo_of_nil s, fun us e h => storeUndo_of_concat s us e h,
   storeRedo_of_nil s, fun rs e h => storeRedo_of_concat s rs e h⟩

/-- Witness for `undo_redo_null_or_pop` at an empty store and at a store
holding one entry on each stack. -/
theorem undo_redo_null_or_pop_witness :
    storeUndo sEmptyFix = (none, sEmptyFix) ∧
    storeUndo sOneFix = (some eFix, { sOneFix with
      undoStack := []
      redoStack := sOneFix.redoStack ++ [eFix]
      notifyCount := sOneFix.notifyCount + 1 }) ∧
    storeRedo sEmptyFix = (none, sEmptyFix) ∧
    storeRedo sOneFix = (some eFix, { sOneFix with
      undoStack := sOneFix.undoStack ++ [eFix]
      redoStack := []
      notifyCount := sOneFix.notifyCount + 1 }) :=
  ⟨(undo_redo_null_or_pop Nat sEmptyFix).1 rfl,
   (undo_redo_null_or_pop Nat sOneFix).2.1 [] eFix rfl,
   (undo_redo_null_or_pop Nat sEmptyFix).2.2.1 rfl,
   (undo_redo_null_or_pop Nat sOneFix).2.2.2 [] eFix rfl⟩

/-- C10: from any state with a non-empty undo stack, `undo()` followed by
`redo()` returns the same Command twice, restores both stacks exactly, and
neither call changes `hasPendingChanges`. -/
theorem undo_then_redo_roundtrip (V : Type) (s : GridState V)
    (h : s.undoStack ≠ []) :
    (storeUndo s).1.isSome = true ∧
    (storeRedo (storeUndo s).2).1 = (storeUndo s).1 ∧
    (storeRedo (storeUndo s).2).2.undoStack = s.undoStack ∧
    (storeRedo (storeUndo s).2).2.redoStack = s.redoStack ∧
    (storeUndo s).2.hasPendingChanges = s.hasPendingChanges ∧
    (storeRedo (storeUndo s).2).2.hasPendingChanges = s.hasPendingChanges := by
  rcases List.eq_nil_or_concat s.undoStack with h0 | ⟨us, e, h0⟩
  · exact absurd h0 h
  · rw [List.concat_eq_append] at h0
    rw [storeUndo_of_concat s us e h0]
    have h1 : storeRedo { s with
        undoStack := us
        redoStack := s.redoStack ++ [e]
        notifyCount := s.notifyCount + 1 } =
        (some e, { s with
          undoStack := us ++ [e]
          redoStack := s.redoStack
          notifyCount := s.notifyCount + 1 + 1 }) := by
      exact storeRedo_of_concat _ s.redoStack e rfl
    rw [h1]
    simp [h0]

/-- Witness for `undo_then_redo_roundtrip` at a store holding one entry. -/
theorem undo_then_redo_roundtrip_witness :
    (storeUndo sOneFix).1.isSome = true ∧
    (storeRedo (storeUndo sOneFix).2).1 = (storeUndo sOneFix).1 ∧
    (storeRedo (storeUndo sOneFix).2).2.undoStack = sOneFix.undoStack ∧
    (storeRedo (storeUndo sOneFix).2).2.redoStack = sOneFix.redoStack ∧
    (storeUndo sOneFix).2.hasPendingChanges = sOneFix.hasPendingChanges ∧
    (storeRedo (storeUndo sOneFix).2).2.hasPendingChanges = sOneFix.hasPendingChanges :=
  undo_then_redo_roundtrip Nat sOneFix (by simp [sOneFix])

/-! ### The history bound (C4) -/

/-- Pushing a sequence of Commands, oldest first. -/
def pushMany {V : Type} (s : GridState V) (es : List (HistoryEntry V)) :
    GridState V :=
  es.foldl push s

/-- Calling `undo()` a fixed number of times, ignoring the returned entries. -/
def undoTimes {V : Type} (s : GridState V) : Nat → GridState V
  | 0 => s
  | n + 1 => undoTimes (storeUndo s).2 n

theorem pushStack_of_lt {V : Type} (u : List (HistoryEntry V)) (mh : Nat)
    (e : HistoryEntry V) (h : u.length < mh) : pushStack u mh e = u ++ [e] := by
  simp only [pushStack]
  rw [if_neg]
  simp
  omega

theorem foldl_pushStack_drop {V : Type} (mh : Nat) (es : List (HistoryEntry V)) :
    ∀ u : List (HistoryEntry V), u.length ≤ mh →
      es.foldl (fun a e => pushStack a mh e) u
        = (u ++ es).drop (u.length + es.length - mh) := by
  induction es with
  | nil =>
    intro u hu
    simp [Nat.sub_eq_zero_of_le hu]
  | cons e rest ih =>
    intro u hu
    rcases Nat.lt_or_ge u.length mh with hlt | hge
    · rw [List.foldl_cons, pushStack_of_lt u mh e hlt]
      have h1 := ih (u ++ [e]) (by simp; omega)
      rw [h1]
      have h2 : (u ++ [e]) ++ rest = u ++ e :: rest := by simp
      rw [h2]
      congr 1
      simp
      omega
    · have heq : u.length = mh := Nat.le_antisymm hu hge
      rw [List.foldl_cons]
      have hstep : pushStack u mh e = (u ++ [e]).tail := by
        simp only [pushStack]
        rw [if_pos]
        simp
        omega
      rw [hstep]
      rcases u with _ | ⟨x, u0⟩
      · have hmh : mh = 0 := by simpa using heq.symm
        have h1 := ih ([] : List (HistoryEntry V)) (by simp)
        simp only [List.nil_append, List.tail_cons] at h1 ⊢
        rw [h1, hmh]
        simp
      · have heq' : u0.length + 1 = mh := by simpa using heq
        have htail : (x :: u0 ++ [e]).tail = u0 ++ [e] := by simp
        rw [htail]
        have h1 := ih (u0 ++ [e]) (by simp; omega)
        rw [h1]
        have h2 : (u0 ++ [e]) ++ rest = u0 ++ e :: rest := by simp
        rw [h2]
        have h3 : (x :: u0) ++ e :: rest = x :: (u0 ++ e :: rest) := by simp
        rw [h3]
        have h4 : (x :: u0).length + (e :: rest).length - mh
            = ((u0 ++ [e]).length + rest.length - mh) + 1 := by
          simp only [List.length_cons, List.length_append, List.length_nil]
          omega
        rw [h4, List.drop_succ_cons]

theorem pushMany_undoStack {V : Type} (es : List (HistoryEntry V)) :
    ∀ s : GridState V,
      (pushMany s es).undoStack
        = es.foldl (fun a e => pushStack a s.maxHistory e) s.undoStack ∧
      (pushMany s es).maxHistory = s.maxHistory := by
  induction es with
  | nil => intro s; simp [pushMany]
  | cons e rest ih =>
    intro s
    have h1 := ih (push s e)
    simp only [pushMany, List.foldl_cons] at h1 ⊢
    have h2 : (push s e).undoStack = pushStack s.undoStack s.maxHistory e := by
      simp [push, notify]
    have h3 : (push s e).maxHistory = s.maxHistory := by simp [push, notify]
    rw [h1.1, h2, h3, h1.2]
    exact ⟨rfl, rfl⟩

theorem undoTimes_empties {V : Type} :
    ∀ (n : Nat) (s : GridState V), s.undoStack.length ≤ n →
      (undoTimes s n).undoStack = [] := by
  intro n
  induction n with
  | zero =>
    intro s hs
    exact List.eq_nil_of_length_eq_zero (Nat.le_zero.mp hs)
  | succ n ih =>
    intro s hs
    show (undoTimes (storeUndo s).2 n).undoStack = []
    apply ih
    rw [storeUndo_snd_undoStack]
    simp [List.length_dropLast]
    omega

/-- C4: starting from an empty undo stack, pushing `maxHistory + k` Commands
leaves exactly the `maxHistory` most recent ones — the `k` oldest are evicted
from the front — and `undo()` repeated `maxHistory` times then empties the
stack. -/
theorem history_bound (V : Type) (s : GridState V)
    (es : List (HistoryEntry V)) (k : Nat)
    (h0 : s.undoStack = []) (hlen : es.length = s.maxHistory + k) :
    (pushMany s es).undoStack = es.drop k ∧
    (pushMany s es).undoStack.length = s.maxHistory ∧
    (undoTimes (pushMany s es) s.maxHistory).undoStack = [] := by
  have h1 := (pushMany_undoStack es s).1
  have h2 := foldl_pushStack_drop s.maxHistory es s.undoStack (by rw [h0]; simp)
  rw [h2, h0] at h1
  simp only [List.nil_append, List.length_nil, Nat.zero_add] at h1
  have hk : es.length - s.maxHistory = k := by omega
  rw [hk] at h1
  refine ⟨h1, ?_, ?_⟩
  · rw [h1]
    simp [List.length_drop]
    omega
  · apply undoTimes_empties
    rw [h1]
    simp [List.length_drop]
    omega

/-- Witness for `history_bound`: `maxHistory = 2`, three pushes (`k = 1`). -/
theorem history_bound_witness :
    (pushMany (initState ([] : List (Row Nat)) 2 true) [eFix, eFix, eFix]).undoStack
        = [eFix, eFix, eFix].drop 1 ∧
    (pushMany (initState ([] : List (Row Nat)) 2 true) [eFix, eFix, eFix]).undoStack.length = 2 ∧
    (undoTimes (pushMany (initState ([] : List (Row Nat)) 2 true) [eFix, eFix, eFix]) 2).undoStack
        = [] :=
  history_bound Nat (initState [] 2 true) [eFix, eFix, eFix] 1 rfl rfl

/-! ### Re-insertion at the end (C3) -/

private def row1 : Row Nat := ⟨"r1", [("v", 1)]⟩
private def row2 : Row Nat := ⟨"r2", [("v", 2)]⟩
private def row3 : Row Nat := ⟨"r3", [("v", 3)]⟩
private def row4 : Row Nat := ⟨"r4", [("v", 4)]⟩
private def row5 : Row Nat := ⟨"r5", [("v", 5)]⟩

/-- The scenario state: the grid held rows `r1..r5`, the host already removed
`r2` and `r4` from its array, and `trackRowsDelete([row2, row4])` recorded
the deletion. -/
private def sScenario : GridState Nat :=
  trackRowsDelete (initState [row1, row3, row5] 100 true) [row2, row4] 0

/-- C3: the undo of a `rows_delete` entry (and the redo of a `rows_add`
entry) appends the captured row objects at the end of whatever array it is
handed, never at their original positions; in the concrete `r1..r5` scenario
with `r2` and `r4` deleted, `onUndo` yields `[r1, r3, r5, r2, r4]` — all five
rows, with `r2` and `r4` appended at the end — and the toast `"Undo: 2 rows"`. -/
theorem rows_reinserted_at_end :
    (∀ (V : Type) (d rows : List (Row V)) (ts : Nat),
      (mkRowsDeleteEntry rows ts).undo d = d ++ rows ∧
      (mkRowsAddEntry rows ts).redo d = d ++ rows) ∧
    (onUndo sScenario 1).1.data = [row1, row3, row5, row2, row4] ∧
    (onUndo sScenario 1).2 = some "Undo: 2 rows" := by
  refine ⟨fun V d rows ts => ⟨rfl, rfl⟩, ?_, ?_⟩ <;> decide

/-! ### Branch discard (C5)

`trackCellsUpdate` only merges the edits into the pending map and raises the
pending flag; the redo stack is cleared by `store.push`, which happens only
when the batch is *flushed* (debounce timer fire or a boundary flush).  So
immediately after `undo()` + `trackCellsUpdate`, `redo()` still returns the
old Command; it returns `null` only once the pending batch has been flushed. -/

theorem updAssoc_ne_nil {β : Type} (l : List (String × β)) (k : String) (v : β) :
    updAssoc l k v ≠ [] := by
  cases l with
  | nil => simp [updAssoc]
  | cons p t =>
    obtain ⟨k', v'⟩ := p
    simp only [updAssoc]
    split <;> simp

theorem insertPending_ne_nil {V : Type} (p : List (String × CellUpdate V))
    (u : CellUpdate V) : insertPending p u ≠ [] := by
  simp only [insertPending]
  rcases h : p.lookup (pendingKey u.rowId u.columnId) with _ | ex
  · simp
  · exact updAssoc_ne_nil p _ _

theorem foldl_insertPending_ne_nil {V : Type} (us : List (CellUpdate V)) :
    ∀ p : List (String × CellUpdate V), p ≠ [] →
      us.foldl insertPending p ≠ [] := by
  induction us with
  | nil => intro p hp; simpa using hp
  | cons u rest ih =>
    intro p _
    rw [List.foldl_cons]
    exact ih (insertPending p u) (insertPending_ne_nil p u)

theorem trackCellsUpdate_pending_ne_nil {V : Type} (s : GridState V)
    (us : List (CellUpdate V)) (hen : s.enabled = true) (hus : us ≠ []) :
    (trackCellsUpdate s us).pending ≠ [] ∧
    (trackCellsUpdate s us).undoStack = s.undoStack ∧
    (trackCellsUpdate s us).redoStack = s.redoStack := by
  have hcond : (!s.enabled || us.isEmpty) = false := by
    rw [hen]
    cases us with
    | nil => exact absurd rfl hus
    | cons u t => simp
  rw [trackCellsUpdate, hcond]
  simp only [Bool.false_eq_true, if_false]
  refine ⟨?_, ?_, ?_⟩
  · have h1 : (setPendingChanges { s with
        pending := us.foldl insertPending s.pending } true).pending
        = us.foldl insertPending s.pending := by
      simp only [setPendingChanges]
      split <;> simp [notify]
    rw [h1]
    cases us with
    | nil => exact absurd rfl hus
    | cons u t =>
      rw [List.foldl_cons]
      exact foldl_insertPending_ne_nil t _ (insertPending_ne_nil s.pending u)
  · simp only [setPendingChanges]; split <;> simp [notify]
  · simp only [setPendingChanges]; split <;> simp [notify]

private def uFix : CellUpdate Nat := ⟨"a", "x", 1, 2⟩

private def sBranchFix : GridState Nat :=
  { initState [⟨"a", [("x", 1)]⟩] 100 true with undoStack := [eFix] }

/-- Counterexample to C5 as stated: from a state whose undo stack holds one
Command, `undo()` returns that Command, a subsequent non-empty
`trackCellsUpdate` is recorded, and the next `redo()` still returns a
Command — not `null` — because no flush has happened yet. -/
theorem redo_after_track_not_null :
    (storeUndo sBranchFix).1.isSome = true ∧
    (storeRedo (trackCellsUpdate (storeUndo sBranchFix).2 [uFix])).1.isSome = true := by
  constructor <;> rfl

/-- C5 as amended: after `undo()` (from a state with a non-empty undo stack)
followed by a non-empty `trackCellsUpdate`, `redo()` returns `null` once the
pending batch has been flushed (the debounce timer firing or any boundary
flush), because the flush pushes the new `cells_update` Command and the push
clears the redo stack. -/
theorem redo_null_after_track_and_flush (V : Type) (s : GridState V)
    (us : List (CellUpdate V)) (ts : Nat)
    (hstack : s.undoStack ≠ []) (hen : s.enabled = true) (hus : us ≠ []) :
    (storeUndo s).1.isSome = true ∧
    (storeRedo (flush (trackCellsUpdate (storeUndo s).2 us) ts)).1 = none := by
  constructor
  · rcases List.eq_nil_or_concat s.undoStack with h0 | ⟨u0, e, h0⟩
    · exact absurd h0 hstack
    · rw [List.concat_eq_append] at h0
      rw [storeUndo_of_concat s u0 e h0]
      rfl
  · have hen1 : (storeUndo s).2.enabled = true := by
      rw [(storeUndo_snd_same s).2.2.1, hen]
    have h1 := trackCellsUpdate_pending_ne_nil (storeUndo s).2 us hen1 hus
    set s2 := trackCellsUpdate (storeUndo s).2 us with hs2
    have hflush : (flush s2 ts).redoStack = [] := by
      rw [flush]
      have : s2.pending.isEmpty = false := by
        cases h : s2.pending with
        | nil => exact absurd h h1.1
        | cons p t => simp [h]
      rw [this]
      simp only [Bool.false_eq_true, if_false]
      simp [push, notify]
    exact (storeRedo_of_nil _ hflush) ▸ rfl

/-- Witness for `redo_null_after_track_and_flush` on the concrete
counterexample state: after the flush the redo really is gone. -/
theorem redo_null_after_track_and_flush_witness :
    (storeUndo sBranchFix).1.isSome = true ∧
    (storeRedo (flush (trackCellsUpdate (storeUndo sBranchFix).2 [uFix]) 0)).1 = none :=
  redo_null_after_track_and_flush Nat sBranchFix [uFix] 0
    (by simp [sBranchFix]) rfl (by simp)

/-! ### Batching collapse (C2) -/

theorem setPendingChanges_fields {V : Type} (s : GridState V) (b : Bool) :
    (setPendingChanges s b).pending = s.pending ∧
    (setPendingChanges s b).undoStack = s.undoStack ∧
    (setPendingChanges s b).redoStack = s.redoStack ∧
    (setPendingChanges s b).maxHistory = s.maxHistory ∧
    (setPendingChanges s b).enabled = s.enabled ∧
    (setPendingChanges s b).data = s.data := by
  simp only [setPendingChanges]
  split <;> simp [notify]

theorem setPendingChanges_true_flag {V : Type} (s : GridState V) :
    (setPendingChanges s true).hasPendingChanges = true := by
  simp only [setPendingChanges]
  split
  · next h => exact h
  · simp [notify]

theorem trackCellsUpdate_fields {V : Type} (s : GridState V)
    (us : List (CellUpdate V)) (hen : s.enabled = true) (hus : us ≠ []) :
    (trackCellsUpdate s us).pending = us.foldl insertPending s.pending ∧
    (trackCellsUpdate s us).undoStack = s.undoStack ∧
    (trackCellsUpdate s us).redoStack = s.redoStack ∧
    (trackCellsUpdate s us).maxHistory = s.maxHistory ∧
    (trackCellsUpdate s us).enabled = s.enabled ∧
    (trackCellsUpdate s us).data = s.data ∧
    (trackCellsUpdate s us).hasPendingChanges = true := by
  have hcond : (!s.enabled || us.isEmpty) = false := by
    rw [hen]
    cases us with
    | nil => exact absurd rfl hus
    | cons u t => simp
  rw [trackCellsUpdate, hcond]
  simp only [Bool.false_eq_true, if_false]
  have h1 := setPendingChanges_fields
    { s with pending := us.foldl insertPending s.pending } true
  have h2 := setPendingChanges_true_flag
    { s with pending := us.foldl insertPending s.pending }
  exact ⟨h1.1, h1.2.1, h1.2.2.1, h1.2.2.2.1, h1.2.2.2.2.1, h1.2.2.2.2.2, h2⟩

/-- C2: three successive edits `v0 -> v1 -> v2 -> v3` to the same
`(rowId, columnId)` key inside one batch window collapse in the pending map
to a single entry with the first `previousValue` (`v0`) and the latest
`newValue` (`v3`); the flush then pushes exactly one `cells_update` Command,
whose `undo` writes `v0` into that cell and whose `redo` writes `v3`. -/
theorem batching_collapse (V : Type) (s : GridState V) (r c : String)
    (v0 v1 v2 v3 : V) (ts : Nat)
    (hpend : s.pending = []) (hen : s.enabled = true)
    (hstack : s.undoStack = []) (hmh : 1 ≤ s.maxHistory) :
    (trackCellsUpdate (trackCellsUpdate (trackCellsUpdate s
        [⟨r, c, v0, v1⟩]) [⟨r, c, v1, v2⟩]) [⟨r, c, v2, v3⟩]).pending
      = [(pendingKey r c, ⟨r, c, v0, v3⟩)] ∧
    (flush (trackCellsUpdate (trackCellsUpdate (trackCellsUpdate s
        [⟨r, c, v0, v1⟩]) [⟨r, c, v1, v2⟩]) [⟨r, c, v2, v3⟩]) ts).undoStack
      = [mkCellsUpdateEntry [⟨r, c, v0, v3⟩] ts] ∧
    (∀ (d : List (Row V)) (i : Nat) (row : Row V),
      indexById d r = some i → d[i]? = some row →
        (mkCellsUpdateEntry [⟨r, c, v0, v3⟩] ts).undo d
            = d.set i (setCell row c v0) ∧
        (mkCellsUpdateEntry [⟨r, c, v0, v3⟩] ts).redo d
            = d.set i (setCell row c v3)) ∧
    (∀ d : List (Row V), indexById d r = none →
        (mkCellsUpdateEntry [⟨r, c, v0, v3⟩] ts).undo d = d ∧
        (mkCellsUpdateEntry [⟨r, c, v0, v3⟩] ts).redo d = d) := by
  have t1 := trackCellsUpdate_fields s [⟨r, c, v0, v1⟩] hen (by simp)
  set s1 := trackCellsUpdate s [⟨r, c, v0, v1⟩] with hs1
  have hen1 : s1.enabled = true := by rw [t1.2.2.2.2.1, hen]
  have t2 := trackCellsUpdate_fields s1 [⟨r, c, v1, v2⟩] hen1 (by simp)
  set s2 := trackCellsUpdate s1 [⟨r, c, v1, v2⟩] with hs2
  have hen2 : s2.enabled = true := by rw [t2.2.2.2.2.1, hen1]
  have t3 := trackCellsUpdate_fields s2 [⟨r, c, v2, v3⟩] hen2 (by simp)
  set s3 := trackCellsUpdate s2 [⟨r, c, v2, v3⟩] with hs3
  have hp1 : s1.pending = [(pendingKey r c, ⟨r, c, v0, v1⟩)] := by
    rw [t1.1, hpend]
    simp [insertPending]
  have hp2 : s2.pending = [(pendingKey r c, ⟨r, c, v0, v2⟩)] := by
    rw [t2.1, hp1]
    simp [insertPending, List.lookup, updAssoc]
  have hp3 : s3.pending = [(pendingKey r c, ⟨r, c, v0, v3⟩)] := by
    rw [t3.1, hp2]
    simp [insertPending, List.lookup, updAssoc]
  refine ⟨hp3, ?_, ?_, ?_⟩
  · rw [flush]
    have hne : s3.pending.isEmpty = false := by rw [hp3]; rfl
    rw [hne]
    simp only [Bool.false_eq_true, if_false]
    have hmap : s3.pending.map Prod.snd = [⟨r, c, v0, v3⟩] := by
      rw [hp3]; rfl
    have hu3 : s3.undoStack = [] := by
      rw [t3.2.1, t2.2.1, t1.2.1, hstack]
    have hm3 : s3.maxHistory = s.maxHistory := by
      rw [t3.2.2.2.1, t2.2.2.2.1, t1.2.2.2.1]
    simp only [push, notify, hmap]
    rw [hu3, hm3]
    simp only [pushStack, List.nil_append, List.length_cons, List.length_nil]
    rw [if_neg (by omega)]
  · intro d i row hidx hrow
    constructor <;>
      simp [mkCellsUpdateEntry, replayCells, replayStep, hidx, hrow]
  · intro d hidx
    constructor <;> simp [mkCellsUpdateEntry, replayCells, replayStep, hidx]

/-- Witness for `batching_collapse`: a fresh enabled state, collapsing the
edits `0 -> 1 -> 2 -> 3` of cell `("a", "x")`. -/
theorem batching_collapse_witness :
    (trackCellsUpdate (trackCellsUpdate (trackCellsUpdate
        (initState ([⟨"a", [("x", 0)]⟩] : List (Row Nat)) 100 true)
        [⟨"a", "x", 0, 1⟩]) [⟨"a", "x", 1, 2⟩]) [⟨"a", "x", 2, 3⟩]).pending
      = [(pendingKey "a" "x", ⟨"a", "x", 0, 3⟩)] ∧
    (flush (trackCellsUpdate (trackCellsUpdate (trackCellsUpdate
        (initState ([⟨"a", [("x", 0)]⟩] : List (Row Nat)) 100 true)
        [⟨"a", "x", 0, 1⟩]) [⟨"a", "x", 1, 2⟩]) [⟨"a", "x", 2, 3⟩]) 0).undoStack
      = [mkCellsUpdateEntry [⟨"a", "x", 0, 3⟩] 0] :=
  ⟨(batching_collapse Nat (initState [⟨"a", [("x", 0)]⟩] 100 true)
      "a" "x" 0 1 2 3 0 rfl rfl rfl (by decide)).1,
   (batching_collapse Nat (initState [⟨"a", [("x", 0)]⟩] 100 true)
      "a" "x" 0 1 2 3 0 rfl rfl rfl (by decide)).2.1⟩

/-! ### The pending flag invariant (C8) -/

/-- The coupling invariant: the dirty flag is up exactly when the batcher
holds at least one uncommitted edit. -/
def PendingInv {V : Type} (s : GridState V) : Prop :=
  s.hasPendingChanges = true ↔ s.pending ≠ []

theorem push_fields {V : Type} (s : GridState V) (e : HistoryEntry V) :
    (push s e).pending = s.pending ∧
    (push s e).hasPendingChanges = false ∧
    (push s e).redoStack = [] ∧
    (push s e).undoStack = pushStack s.undoStack s.maxHistory e ∧
    (push s e).enabled = s.enabled ∧
    (push s e).maxHistory = s.maxHistory ∧
    (push s e).data = s.data := by
  simp [push, notify]

theorem flush_pendingInv {V : Type} (s : GridState V) (ts : Nat)
    (h : PendingInv s) : PendingInv (flush s ts) := by
  rw [flush]
  by_cases hp : s.pending.isEmpty
  · rw [if_pos hp]; exact h
  · rw [if_neg hp]
    have h1 := push_fields { s with pending := ([] : List (String × CellUpdate V)) }
      (mkCellsUpdateEntry (s.pending.map Prod.snd) ts)
    constructor
    · intro hc; rw [h1.2.1] at hc; exact absurd hc (by simp)
    · intro hc; rw [h1.1] at hc; exact absurd rfl hc

theorem flush_pending_nil {V : Type} (s : GridState V) (ts : Nat)
    (h : s.pending.isEmpty = false) : (flush s ts).pending = [] := by
  rw [flush, h]
  simp only [Bool.false_eq_true, if_false]
  exact (push_fields _ _).1

theorem trackCellsUpdate_pendingInv {V : Type} (s : GridState V)
    (us : List (CellUpdate V)) (h : PendingInv s) :
    PendingInv (trackCellsUpdate s us) := by
  rw [trackCellsUpdate]
  by_cases hc : (!s.enabled || us.isEmpty) = true
  · rw [if_pos hc]; exact h
  · rw [if_neg hc]
    have hus : us ≠ [] := by
      intro habs
      rw [habs] at hc
      simp at hc
    constructor
    · intro _
      have h1 := (setPendingChanges_fields
        { s with pending := us.foldl insertPending s.pending } true).1
      rw [h1]
      cases us with
      | nil => exact absurd rfl hus
      | cons u t =>
        rw [List.foldl_cons]
        exact foldl_insertPending_ne_nil t _ (insertPending_ne_nil s.pending u)
    · intro _
      exact setPendingChanges_true_flag _

theorem storeClear_fields {V : Type} (s : GridState V) :
    (storeClear s).pending = s.pending ∧
    (storeClear s).hasPendingChanges = false ∧
    (storeClear s).undoStack = [] ∧
    (storeClear s).redoStack = [] := by
  simp [storeClear, notify]

theorem onUndo_pendingInv {V : Type} (s : GridState V) (ts : Nat)
    (h : PendingInv s) : PendingInv (onUndo s ts).1 := by
  by_cases he : (!s.enabled) = true
  · rw [onUndo, if_pos he]; exact h
  · have h1 : PendingInv (if s.pending.isEmpty then s else flush s ts) := by
      by_cases hp : s.pending.isEmpty
      · rw [if_pos hp]; exact h
      · rw [if_neg hp]; exact flush_pendingInv s ts h
    rcases hu : storeUndo (if s.pending.isEmpty then s else flush s ts) with ⟨oe, s2⟩
    have h2 := storeUndo_snd_same (if s.pending.isEmpty then s else flush s ts)
    rw [hu] at h2
    have h2' : s2.hasPendingChanges
        = (if s.pending.isEmpty then s else flush s ts).hasPendingChanges ∧
        s2.pending = (if s.pending.isEmpty then s else flush s ts).pending :=
      ⟨h2.1, h2.2.1⟩
    have h1' : PendingInv s2 := by
      unfold PendingInv
      rw [h2'.1, h2'.2]
      exact h1
    cases oe with
    | none =>
      have hres : (onUndo s ts).1 = s2 := by
        rw [onUndo, if_neg he]
        simp only [hu]
      rw [hres]; exact h1'
    | some e =>
      have hres : (onUndo s ts).1 = { s2 with data := e.undo s2.data } := by
        rw [onUndo, if_neg he]
        simp only [hu]
      rw [hres]
      show s2.hasPendingChanges = true ↔ s2.pending ≠ []
      exact h1'

theorem onRedo_pendingInv {V : Type} (s : GridState V)
    (h : PendingInv s) : PendingInv (onRedo s).1 := by
  by_cases he : (!s.enabled) = true
  · rw [onRedo, if_pos he]; exact h
  · rcases hr : storeRedo s with ⟨oe, s2⟩
    have h2 := storeRedo_snd_same s
    rw [hr] at h2
    have h2' : s2.hasPendingChanges = s.hasPendingChanges ∧ s2.pending = s.pending :=
      ⟨h2.1, h2.2.1⟩
    have h1' : PendingInv s2 := by
      unfold PendingInv
      rw [h2'.1, h2'.2]
      exact h
    cases oe with
    | none =>
      have hres : (onRedo s).1 = s2 := by
        rw [onRedo, if_neg he]
        simp only [hr]
      rw [hres]; exact h1'
    | some e =>
      have hres : (onRedo s).1 = { s2 with data := e.redo s2.data } := by
        rw [onRedo, if_neg he]
        simp only [hr]
      rw [hres]
      show s2.hasPendingChanges = true ↔ s2.pending ≠ []
      exact h1'

/-- C8: in every reachable state `hasPendingChanges` is up exactly when the
pending-edit map is non-empty, and `canUndo` holds exactly when the undo
stack is non-empty or `hasPendingChanges` is up. -/
theorem pending_flag_and_canUndo (V : Type) (s : GridState V)
    (h : Reachable s) :
    (s.hasPendingChanges = true ↔ s.pending ≠ []) ∧
    (canUndo s = true ↔ (s.undoStack ≠ [] ∨ s.hasPendingChanges = true)) := by
  have hcan : ∀ t : GridState V,
      canUndo t = true ↔ (t.undoStack ≠ [] ∨ t.hasPendingChanges = true) := by
    intro t
    rw [canUndo]
    simp [List.length_pos]
  refine ⟨?_, hcan s⟩
  have hinv : PendingInv s := by
    induction h with
    | init d mh en => exact ⟨fun hc => by simp [initState] at hc, fun hc => absurd rfl hc⟩
    | track us _ ih => exact trackCellsUpdate_pendingInv _ us ih
    | timer ts _ ih => exact flush_pendingInv _ ts ih
    | rowsAdd rows ts _ ih =>
      rename_i s0 _
      rw [trackRowsAdd]
      by_cases hc : (!s0.enabled || rows.isEmpty) = true
      · rw [if_pos hc]; exact ih
      · rw [if_neg hc]
        have hp : (if s0.pending.isEmpty then s0 else flush s0 ts).pending = [] := by
          by_cases hp0 : s0.pending.isEmpty
          · rw [if_pos hp0]; exact List.isEmpty_iff.mp hp0
          · rw [if_neg hp0]
            exact flush_pending_nil s0 ts (by simpa using hp0)
        have h1 := push_fields (if s0.pending.isEmpty then s0 else flush s0 ts)
          (mkRowsAddEntry rows ts)
        exact ⟨fun hcc => absurd hcc (by rw [h1.2.1]; simp),
          fun hcc => absurd (h1.1.trans hp) hcc⟩
    | rowsDelete rows ts _ ih =>
      rename_i s0 _
      rw [trackRowsDelete]
      by_cases hc : (!s0.enabled || rows.isEmpty) = true
      · rw [if_pos hc]; exact ih
      · rw [if_neg hc]
        have hp : (if s0.pending.isEmpty then s0 else flush s0 ts).pending = [] := by
          by_cases hp0 : s0.pending.isEmpty
          · rw [if_pos hp0]; exact List.isEmpty_iff.mp hp0
          · rw [if_neg hp0]
            exact flush_pending_nil s0 ts (by simpa using hp0)
        have h1 := push_fields (if s0.pending.isEmpty then s0 else flush s0 ts)
          (mkRowsDeleteEntry rows ts)
        exact ⟨fun hcc => absurd hcc (by rw [h1.2.1]; simp),
          fun hcc => absurd (h1.1.trans hp) hcc⟩
    | undoStep ts _ ih => exact onUndo_pendingInv _ ts ih
    | redoStep _ ih => exact onRedo_pendingInv _ ih
    | clearStep _ ih =>
      rename_i s0 _
      have h1 := storeClear_fields { s0 with pending := ([] : List (String × CellUpdate V)) }
      rw [onClear]
      exact ⟨fun hc => absurd hc (by rw [h1.2.1]; simp),
        fun hc => absurd (h1.1.trans rfl) hc⟩
    | dataStep d _ ih => exact ih
  exact hinv

/-- Witness for `pending_flag_and_canUndo` at the freshly mounted state. -/
theorem pending_flag_and_canUndo_witness :
    ((initState ([] : List (Row Nat)) 100 true).hasPendingChanges = true ↔
      (initState ([] : List (Row Nat)) 100 true).pending ≠ []) ∧
    (canUndo (initState ([] : List (Row Nat)) 100 true) = true ↔
      ((initState ([] : List (Row Nat)) 100 true).undoStack ≠ [] ∨
        (initState ([] : List (Row Nat)) 100 true).hasPendingChanges = true)) :=
  pending_flag_and_canUndo Nat _ (Reachable.init [] 100 true)

/-! ### The row-identity resolver -/

theorem indexById_lt_length {V : Type} (d : List (Row V)) (id : String) (i : Nat)
    (h : indexById d id = some i) : i < d.length := by
  induction d generalizing i with
  | nil => simp [indexById] at h
  | cons r t ih =>
    rcases ht : indexById t id with _ | j
    · simp only [indexById, ht] at h
      by_cases hid : r.id = id
      · rw [if_pos hid] at h
        cases h
        simp
      · rw [if_neg hid] at h
        cases h
    · simp only [indexById, ht] at h
      cases h
      have := ih j ht
      simp only [List.length_cons]
      omega

theorem indexById_map_getElem {V : Type} (d : List (Row V)) (id : String) (i : Nat)
    (h : indexById d id = some i) : (d.map Row.id)[i]? = some id := by
  induction d generalizing i with
  | nil => simp [indexById] at h
  | cons r t ih =>
    rcases ht : indexById t id with _ | j
    · simp only [indexById, ht] at h
      by_cases hid : r.id = id
      · rw [if_pos hid] at h
        cases h
        simp [hid]
      · rw [if_neg hid] at h
        cases h
    · simp only [indexById, ht] at h
      cases h
      simpa using ih j ht

theorem indexById_eq_none_iff {V : Type} (d : List (Row V)) (id : String) :
    indexById d id = none ↔ ∀ r ∈ d, r.id ≠ id := by
  induction d with
  | nil => simp [indexById]
  | cons r t ih =>
    rcases ht : indexById t id with _ | j
    · have htail : ∀ x ∈ t, x.id ≠ id := ih.mp ht
      simp only [indexById, ht]
      by_cases hid : r.id = id
      · rw [if_pos hid]
        constructor
        · intro h; cases h
        · intro h; exact absurd hid (h r (List.mem_cons_self r t))
      · rw [if_neg hid]
        constructor
        · intro _ x hx
          rcases List.mem_cons.mp hx with hx | hx
          · rw [hx]; exact hid
          · exact htail x hx
        · intro _; rfl
    · simp only [indexById, ht]
      constructor
      · intro h; cases h
      · intro h
        exfalso
        have hm := indexById_map_getElem t id j ht
        rw [List.getElem?_map] at hm
        rcases hx : t[j]? with _ | x
        · rw [hx] at hm; cases hm
        · rw [hx] at hm
          have hxid : x.id = id := by simpa using hm
          exact h x (List.mem_cons_of_mem r (List.getElem?_mem hx)) hxid

theorem indexById_isSome_of_mem {V : Type} (d : List (Row V)) (r : Row V)
    (h : r ∈ d) : (indexById d r.id).isSome = true := by
  rcases hx : indexById d r.id with _ | i
  · rw [indexById_eq_none_iff] at hx
    exact absurd rfl (hx r h)
  · rfl

theorem nodup_id_unique {V : Type} (d : List (Row V))
    (hnd : (d.map Row.id).Nodup) (a b : Row V) (ha : a ∈ d) (hb : b ∈ d)
    (hid : a.id = b.id) : a = b :=
  List.inj_on_of_nodup_map hnd ha hb hid

theorem indexById_getElem_of_mem {V : Type} (d : List (Row V)) (r : Row V) (i : Nat)
    (hnd : (d.map Row.id).Nodup) (hm : r ∈ d)
    (h : indexById d r.id = some i) : d[i]? = some r := by
  have hmap := indexById_map_getElem d r.id i h
  rw [List.getElem?_map] at hmap
  rcases hx : d[i]? with _ | x
  · rw [hx] at hmap; cases hmap
  · rw [hx] at hmap
    have hxid : x.id = r.id := by simpa using hmap
    have := nodup_id_unique d hnd x r (List.getElem?_mem hx) hm hxid
    rw [this]

theorem indexById_congr {V : Type} (d1 d2 : List (Row V))
    (h : d1.map Row.id = d2.map Row.id) (id : String) :
    indexById d1 id = indexById d2 id := by
  induction d1 generalizing d2 with
  | nil =>
    cases d2 with
    | nil => rfl
    | cons r t => simp at h
  | cons r t ih =>
    cases d2 with
    | nil => simp at h
    | cons r' t' =>
      simp only [List.map_cons, List.cons.injEq] at h
      rw [indexById, indexById, ih t' h.2, h.1]

/-! ### Missing row ids are silently skipped (C7) -/

theorem foldl_replayStep_filter {V : Type} (sel : CellUpdate V → V)
    (d : List (Row V)) (us : List (CellUpdate V)) :
    ∀ nd : List (Row V),
      us.foldl (replayStep d sel) nd
        = (us.filter (fun u => (indexById d u.rowId).isSome)).foldl
            (replayStep d sel) nd := by
  induction us with
  | nil => intro nd; rfl
  | cons u rest ih =>
    intro nd
    rw [List.foldl_cons]
    rcases h : indexById d u.rowId with _ | i
    · have hstep : replayStep d sel nd u = nd := by
        rw [replayStep, h]
      have hfil : (u :: rest).filter (fun u => (indexById d u.rowId).isSome)
          = rest.filter (fun u => (indexById d u.rowId).isSome) := by
        rw [List.filter_cons, h]
        simp
      rw [hstep, hfil, ih]
    · have hfil : (u :: rest).filter (fun u => (indexById d u.rowId).isSome)
          = u :: rest.filter (fun u => (indexById d u.rowId).isSome) := by
        rw [List.filter_cons, h]
        simp
      rw [hfil, List.foldl_cons, ih]

theorem replayCells_filter {V : Type} (sel : CellUpdate V → V)
    (us : List (CellUpdate V)) (d : List (Row V)) :
    replayCells sel us d
      = replayCells sel (us.filter (fun u => (indexById d u.rowId).isSome)) d :=
  foldl_replayStep_filter sel d us d

theorem filterMap_filter_isSome {α β : Type} (f : α → Option β) (l : List α) :
    l.filterMap f = (l.filter (fun a => (f a).isSome)).filterMap f := by
  induction l with
  | nil => rfl
  | cons a t ih =>
    rw [List.filterMap_cons, List.filter_cons]
    rcases h : f a with _ | b
    · simp only [h, Option.isSome_none]
      simpa using ih
    · simp only [h, Option.isSome_some, if_pos]
      rw [List.filterMap_cons, h, ih]

theorem filter_on_id_map {V : Type} (rows : List (Row V)) (q : String → Bool) :
    (rows.filter (fun r => q r.id)).map Row.id = (rows.map Row.id).filter q := by
  induction rows with
  | nil => rfl
  | cons r t ih =>
    rw [List.map_cons, List.filter_cons, List.filter_cons]
    cases h : q r.id <;> simp [h, ih]

theorem removeRows_filter {V : Type} (rowIds : List String) (d : List (Row V)) :
    removeRows rowIds d
      = removeRows (rowIds.filter (fun a => (indexById d a).isSome)) d := by
  rw [removeRows, removeRows, ← filterMap_filter_isSome]

/-- C7: replaying any Command against a current array silently skips every
captured row id that is absent from the array and handles the ids that are
present exactly as if the missing ones had never been captured: filtering
the captured updates/rows down to the ids present in `d` does not change the
result of `undo`/`redo`. -/
theorem missing_ids_skipped (V : Type) (d : List (Row V))
    (updates : List (CellUpdate V)) (rows : List (Row V)) (ts : Nat) :
    (mkCellsUpdateEntry updates ts).undo d
      = (mkCellsUpdateEntry
          (updates.filter (fun u => (indexById d u.rowId).isSome)) ts).undo d ∧
    (mkCellsUpdateEntry updates ts).redo d
      = (mkCellsUpdateEntry
          (updates.filter (fun u => (indexById d u.rowId).isSome)) ts).redo d ∧
    (mkRowsAddEntry rows ts).undo d
      = (mkRowsAddEntry
          (rows.filter (fun r => (indexById d r.id).isSome)) ts).undo d ∧
    (mkRowsDeleteEntry rows ts).redo d
      = (mkRowsDeleteEntry
          (rows.filter (fun r => (indexById d r.id).isSome)) ts).redo d := by
  refine ⟨replayCells_filter _ updates d, replayCells_filter _ updates d, ?_, ?_⟩ <;>
  · show removeRows (rows.map Row.id) d = removeRows _ d
    rw [filter_on_id_map rows (fun a => (indexById d a).isSome)]
    exact removeRows_filter (rows.map Row.id) d

/-! ### Cell-level lemmas -/

theorem getCell_setCell_same {V : Type} (r : Row V) (c : String) (v : V) :
    getCell (setCell r c v) c = some v := by
  rw [setCell, getCell]
  induction r.cells with
  | nil => simp [updAssoc]
  | cons p t ih =>
    obtain ⟨k', v'⟩ := p
    rw [updAssoc]
    by_cases h : k' = c
    · rw [if_pos h]
      simp
    · rw [if_neg h]
      rw [List.find?_cons]
      have : (k' == c) = false := by simp [h]
      simp only [this]
      exact ih

theorem getCell_setCell_other {V : Type} (r : Row V) (c c' : String) (v : V)
    (h : c' ≠ c) : getCell (setCell r c v) c' = getCell r c' := by
  rw [setCell, getCell, getCell]
  induction r.cells with
  | nil =>
    simp only [updAssoc]
    rw [List.find?_cons]
    have : (c == c') = false := by simp; exact fun hh => h hh.symm
    simp [this]
  | cons p t ih =>
    obtain ⟨k', v'⟩ := p
    rw [updAssoc]
    by_cases hk : k' = c
    · rw [if_pos hk]
      rw [List.find?_cons, List.find?_cons]
      have h1 : (c == c') = false := by simp; exact fun hh => h hh.symm
      have h2 : (k' == c') = false := by rw [hk]; exact h1
      simp only [h1, h2]
    · rw [if_neg hk]
      rw [List.find?_cons, List.find?_cons]
      cases hkc : (k' == c') <;> simp [hkc]
      exact ih

theorem setCell_id {V : Type} (r : Row V) (c : String) (v : V) :
    (setCell r c v).id = r.id := rfl

/-- The cell value stored at array position `i`. -/
def getCellAtIdx {V : Type} (d : List (Row V)) (i : Nat) (c : String) : Option V :=
  d[i]?.bind (fun r => getCell r c)

/-- Whether a tracked update targets position `i`, column `c`, of `d`. -/
def relevantUpdate {V : Type} (d : List (Row V)) (i : Nat) (c : String)
    (u : CellUpdate V) : Bool :=
  decide (indexById d u.rowId = some i) && (u.columnId == c)

theorem set_getElem?_self {α : Type} :
    ∀ (l : List α) (i : Nat) (a : α), l[i]? = some a → l.set i a = l := by
  intro l
  induction l with
  | nil => intro i a h; simp at h
  | cons x t ih =>
    intro i a h
    cases i with
    | zero =>
      simp at h
      simp [List.set, h]
    | succ j =>
      simp at h
      simp [List.set, ih j a h]

theorem replayStep_length {V : Type} (d nd : List (Row V)) (sel : CellUpdate V → V)
    (u : CellUpdate V) : (replayStep d sel nd u).length = nd.length := by
  rcases h : indexById d u.rowId with _ | i
  · simp [replayStep, h]
  · rcases hrow : nd[i]? with _ | row
    · simp [replayStep, h, hrow]
    · simp [replayStep, h, hrow]

theorem replayStep_map_id {V : Type} (d nd : List (Row V)) (sel : CellUpdate V → V)
    (u : CellUpdate V) : (replayStep d sel nd u).map Row.id = nd.map Row.id := by
  rcases h : indexById d u.rowId with _ | i
  · simp [replayStep, h]
  · rcases hrow : nd[i]? with _ | row
    · simp [replayStep, h, hrow]
    · simp only [replayStep, h, hrow, List.map_set, setCell_id]
      apply set_getElem?_self
      rw [List.getElem?_map, hrow]
      rfl

theorem foldl_replayStep_length {V : Type} (d : List (Row V)) (sel : CellUpdate V → V)
    (us : List (CellUpdate V)) :
    ∀ nd : List (Row V), (us.foldl (replayStep d sel) nd).length = nd.length := by
  induction us with
  | nil => intro nd; rfl
  | cons u rest ih =>
    intro nd
    rw [List.foldl_cons, ih, replayStep_length]

theorem foldl_replayStep_map_id {V : Type} (d : List (Row V)) (sel : CellUpdate V → V)
    (us : List (CellUpdate V)) :
    ∀ nd : List (Row V), (us.foldl (replayStep d sel) nd).map Row.id = nd.map Row.id := by
  induction us with
  | nil => intro nd; rfl
  | cons u rest ih =>
    intro nd
    rw [List.foldl_cons, ih, replayStep_map_id]

theorem replayCells_map_id {V : Type} (sel : CellUpdate V → V)
    (us : List (CellUpdate V)) (d : List (Row V)) :
    (replayCells sel us d).map Row.id = d.map Row.id :=
  foldl_replayStep_map_id d sel us d

theorem replayCells_length {V : Type} (sel : CellUpdate V → V)
    (us : List (CellUpdate V)) (d : List (Row V)) :
    (replayCells sel us d).length = d.length :=
  foldl_replayStep_length d sel us d

theorem getLast?_cons_of_ne_nil {α : Type} (a : α) (l : List α) (h : l ≠ []) :
    (a :: l).getLast? = l.getLast? := by
  cases l with
  | nil => exact absurd rfl h
  | cons b t => simp

/-- The heart of the cells replay: after folding the replay step over the
updates, the cell at position `i`, column `c`, holds the selected value of
the last update targeting that position and column, or its old value when no
update does. -/
theorem foldl_replayStep_cellAtIdx {V : Type} (sel : CellUpdate V → V)
    (d : List (Row V)) (i : Nat) (c : String) :
    ∀ (us : List (CellUpdate V)) (nd : List (Row V)), nd.length = d.length →
      getCellAtIdx (us.foldl (replayStep d sel) nd) i c
        = ((us.filter (relevantUpdate d i c)).getLast?).elim
            (getCellAtIdx nd i c) (fun u => some (sel u)) := by
  intro us
  induction us with
  | nil =>
    intro nd _
    simp
  | cons u rest ih =>
    intro nd hlen
    rw [List.foldl_cons, List.filter_cons]
    rcases h : indexById d u.rowId with _ | j
    · have hp : relevantUpdate d i c u = false := by
        simp [relevantUpdate, h]
      rw [hp]
      have hstep : replayStep d sel nd u = nd := by rw [replayStep, h]
      rw [hstep]
      simp only [Bool.false_eq_true, if_false]
      exact ih nd hlen
    · have hj : j < d.length := indexById_lt_length d u.rowId j h
      rcases hrow : nd[j]? with _ | row
      · rw [List.getElem?_eq_none_iff] at hrow
        omega
      · have hstep : replayStep d sel nd u
            = nd.set j (setCell row u.columnId (sel u)) := by
          simp only [replayStep, h, hrow]
        rw [hstep]
        have hlen' : (nd.set j (setCell row u.columnId (sel u))).length = d.length := by
          simp [hlen]
        have h1 := ih (nd.set j (setCell row u.columnId (sel u))) hlen'
        cases hrel : relevantUpdate d i c u with
        | true =>
          have hji : j = i := by
            have h2 := (Bool.and_eq_true _ _).mp hrel |>.1
            have h3 := of_decide_eq_true h2
            rw [h] at h3
            exact Option.some.inj h3
          have hcc : u.columnId = c := by
            have h2 := (Bool.and_eq_true _ _).mp hrel |>.2
            exact eq_of_beq h2
          rw [if_pos rfl]
          rcases hl : (rest.filter (relevantUpdate d i c)).getLast? with _ | u'
          · have hnil : rest.filter (relevantUpdate d i c) = [] :=
              List.getLast?_eq_none_iff.mp hl
            rw [hnil] at h1 ⊢
            rw [h1]
            show getCellAtIdx (nd.set j (setCell row u.columnId (sel u))) i c
              = some (sel u)
            subst hji
            subst hcc
            rw [getCellAtIdx, List.getElem?_set_self (by omega)]
            show getCell (setCell row u.columnId (sel u)) u.columnId = some (sel u)
            exact getCell_setCell_same row u.columnId (sel u)
          · have hne : rest.filter (relevantUpdate d i c) ≠ [] := by
              intro habs
              rw [habs] at hl
              cases hl
            rw [getLast?_cons_of_ne_nil u _ hne, hl]
            rw [hl] at h1
            rw [h1]
            rfl
        | false =>
          simp only [Bool.false_eq_true, if_false]
          rw [h1]
          have hbase : getCellAtIdx (nd.set j (setCell row u.columnId (sel u))) i c
              = getCellAtIdx nd i c := by
            by_cases hji : j = i
            · subst hji
              have hcc : (u.columnId == c) = false := by
                rw [relevantUpdate, h] at hrel
                simpa using hrel
              rw [getCellAtIdx, getCellAtIdx,
                List.getElem?_set_self (by omega), hrow]
              show getCell (setCell row u.columnId (sel u)) c = getCell row c
              exact getCell_setCell_other row u.columnId c (sel u)
                (fun hh => by simp [hh.symm] at hcc)
            · rw [getCellAtIdx, getCellAtIdx, List.getElem?_set_ne hji]
          rw [hbase]

/-! ### `cellAt` through the resolver, and structural equality from permutation -/

theorem find?_id_eq_indexById {V : Type} (d : List (Row V)) (id : String)
    (hnd : (d.map Row.id).Nodup) :
    d.find? (fun r => r.id == id) = (indexById d id).bind (fun i => d[i]?) := by
  rcases h : indexById d id with _ | i
  · show d.find? (fun r => r.id == id) = none
    rw [List.find?_eq_none]
    intro x hx
    simp only [beq_iff_eq]
    exact (indexById_eq_none_iff d id).mp h x hx
  · have hm := indexById_map_getElem d id i h
    rw [List.getElem?_map] at hm
    rcases hx : d[i]? with _ | x
    · rw [hx] at hm; cases hm
    · rw [hx] at hm
      have hxid : x.id = id := by simpa using hm
      have hs : (d.find? (fun r => r.id == id)).isSome := by
        rw [List.find?_isSome]
        exact ⟨x, List.getElem?_mem hx, by simp [hxid]⟩
      rcases hf : d.find? (fun r => r.id == id) with _ | y
      · rw [hf] at hs; cases hs
      · have hyid : y.id = id := by simpa using List.find?_some hf
        have hyx : y = x := nodup_id_unique d hnd y x
          (List.mem_of_find?_eq_some hf) (List.getElem?_mem hx)
          (hyid.trans hxid.symm)
        rw [hf, hyx]
        exact hx.symm

theorem cellAt_eq_getCellAtIdx {V : Type} (d : List (Row V)) (id c : String)
    (hnd : (d.map Row.id).Nodup) :
    cellAt d id c = (indexById d id).bind (fun i => getCellAtIdx d i c) := by
  rw [cellAt, find?_id_eq_indexById d id hnd]
  rcases h : indexById d id with _ | i
  · rfl
  · rfl

theorem structEq_of_perm {V : Type} (d1 d2 : List (Row V))
    (hnd : (d2.map Row.id).Nodup) (hp : d1.Perm d2) : StructEq d1 d2 := by
  refine ⟨hp.map Row.id, fun id c => ?_⟩
  rw [cellAt, cellAt]
  rcases hf2 : d2.find? (fun r => r.id == id) with _ | y2
  · have hf2' := hf2
    rw [List.find?_eq_none] at hf2'
    have h1 : d1.find? (fun r => r.id == id) = none := by
      rw [List.find?_eq_none]
      intro x hx
      exact hf2' x (hp.mem_iff.mp hx)
    rw [h1, hf2]
  · have hpy2 := List.find?_some hf2
    have hs : (d1.find? (fun r => r.id == id)).isSome := by
      rw [List.find?_isSome]
      exact ⟨y2, hp.mem_iff.mpr (List.mem_of_find?_eq_some hf2), hpy2⟩
    rcases hf1 : d1.find? (fun r => r.id == id) with _ | y1
    · rw [hf1] at hs; cases hs
    · have e1 : y1.id = id := by simpa using List.find?_some hf1
      have e2 : y2.id = id := by simpa using hpy2
      have hyy : y1 = y2 := nodup_id_unique d2 hnd y1 y2
        (hp.mem_iff.mp (List.mem_of_find?_eq_some hf1))
        (List.mem_of_find?_eq_some hf2) (e1.trans e2.symm)
      rw [hf1, hf2, hyy]

/-! ### The cells_update round trip -/

theorem cells_roundtrip_structEq {V : Type} (d : List (Row V))
    (updates : List (CellUpdate V)) (ts : Nat)
    (hnd : (d.map Row.id).Nodup)
    (hval : ∀ u ∈ updates, (indexById d u.rowId).isSome = true →
      cellAt d u.rowId u.columnId = some u.newValue) :
    StructEq ((mkCellsUpdateEntry updates ts).redo
      ((mkCellsUpdateEntry updates ts).undo d)) d := by
  show StructEq (replayCells (fun u => u.newValue) updates
    (replayCells (fun u => u.previousValue) updates d)) d
  set d1 := replayCells (fun u => u.previousValue) updates d with hd1
  have hmap1 : d1.map Row.id = d.map Row.id := replayCells_map_id _ _ _
  have hlen1 : d1.length = d.length := replayCells_length _ _ _
  set d2 := replayCells (fun u => u.newValue) updates d1 with hd2
  have hmap2 : d2.map Row.id = d.map Row.id :=
    (replayCells_map_id _ _ _).trans hmap1
  have hnd2 : (d2.map Row.id).Nodup := by rw [hmap2]; exact hnd
  have hidx1 : ∀ a, indexById d1 a = indexById d a :=
    fun a => indexById_congr d1 d hmap1 a
  have hidx2 : ∀ a, indexById d2 a = indexById d a :=
    fun a => indexById_congr d2 d hmap2 a
  constructor
  · rw [hmap2]
  · intro id c
    rw [cellAt_eq_getCellAtIdx d2 id c hnd2, cellAt_eq_getCellAtIdx d id c hnd,
      hidx2]
    rcases hI : indexById d id with _ | i
    · rfl
    · show getCellAtIdx d2 i c = getCellAtIdx d i c
      have hfil : updates.filter (relevantUpdate d1 i c)
          = updates.filter (relevantUpdate d i c) := by
        apply List.filter_congr
        intro u _
        rw [relevantUpdate, relevantUpdate, hidx1]
      have e2 : getCellAtIdx d2 i c
          = ((updates.filter (relevantUpdate d i c)).getLast?).elim
              (getCellAtIdx d1 i c) (fun u => some u.newValue) := by
        rw [hd2, replayCells, ← hfil]
        exact foldl_replayStep_cellAtIdx _ d1 i c updates d1 rfl
      have e1 : getCellAtIdx d1 i c
          = ((updates.filter (relevantUpdate d i c)).getLast?).elim
              (getCellAtIdx d i c) (fun u => some u.previousValue) := by
        rw [hd1, replayCells]
        exact foldl_replayStep_cellAtIdx _ d i c updates d rfl
      rcases hl : (updates.filter (relevantUpdate d i c)).getLast? with _ | u
      · rw [e2, e1, hl]
        rfl
      · rw [e2, hl]
        show some u.newValue = getCellAtIdx d i c
        have humem : u ∈ updates :=
          List.mem_of_mem_filter (List.mem_of_getLast?_eq_some hl)
        have hurel : relevantUpdate d i c u = true :=
          List.of_mem_filter (List.mem_of_getLast?_eq_some hl)
        have huidx : indexById d u.rowId = some i := by
          have h2 := (Bool.and_eq_true _ _).mp hurel |>.1
          exact of_decide_eq_true h2
        have hucol : u.columnId = c := by
          have h2 := (Bool.and_eq_true _ _).mp hurel |>.2
          exact eq_of_beq h2
        have hrowid : u.rowId = id := by
          have hma := indexById_map_getElem d u.rowId i huidx
          have hmb := indexById_map_getElem d id i hI
          rw [hma] at hmb
          exact Option.some.inj hmb
        have hv := hval u humem (by rw [huidx]; rfl)
        rw [cellAt_eq_getCellAtIdx d u.rowId u.columnId hnd, huidx] at hv
        rw [hucol] at hv
        show some u.newValue = getCellAtIdx d i c
        exact hv.symm

/-! ### The row-operation round trips -/

theorem sorted_ge_nodup_pairwise_gt (l : List Nat)
    (hs : l.Sorted (· ≥ ·)) (hn : l.Nodup) : l.Pairwise (· > ·) :=
  (List.Pairwise.and hs hn).imp (fun h => lt_of_le_of_ne h.1 (Ne.symm h.2))

theorem perm_getElem_cons_eraseIdx {α : Type} (l : List α) (i : Nat)
    (h : i < l.length) : l.Perm (l[i] :: l.eraseIdx i) := by
  have h1 : l = l.take i ++ l[i] :: l.drop (i + 1) := by
    conv_lhs => rw [← List.take_append_drop i l]
    rw [List.drop_eq_getElem_cons h]
  rw [List.eraseIdx_eq_take_drop_succ]
  conv_lhs => rw [h1]
  exact List.perm_middle

theorem removeIndicesDesc_perm {V : Type} :
    ∀ (idxs : List Nat) (d : List (Row V)),
      idxs.Pairwise (· > ·) → (∀ i ∈ idxs, i < d.length) →
      (removeIndicesDesc d idxs ++ idxs.filterMap (fun i => d[i]?)).Perm d := by
  intro idxs
  induction idxs with
  | nil =>
    intro d _ _
    simp [removeIndicesDesc]
  | cons i rest ih =>
    intro d hpw hvalid
    have hi : i < d.length := hvalid i (List.mem_cons_self i rest)
    have hrest_lt : ∀ j ∈ rest, j < i :=
      fun j hj => (List.pairwise_cons.mp hpw).1 j hj
    have hpw' : rest.Pairwise (· > ·) := (List.pairwise_cons.mp hpw).2
    have hvalid' : ∀ j ∈ rest, j < (d.eraseIdx i).length := by
      intro j hj
      rw [List.length_eraseIdx_of_lt hi]
      have := hrest_lt j hj
      omega
    have hmaps : rest.filterMap (fun j => (d.eraseIdx i)[j]?)
        = rest.filterMap (fun j => d[j]?) := by
      apply List.filterMap_congr
      intro j hj
      rw [List.getElem?_eraseIdx_of_lt d i j (hrest_lt j hj)]
    have ih' := ih (d.eraseIdx i) hpw' hvalid'
    rw [hmaps] at ih'
    have hr : removeIndicesDesc d (i :: rest)
        = removeIndicesDesc (d.eraseIdx i) rest := rfl
    have hfm : (i :: rest).filterMap (fun j => d[j]?)
        = d[i] :: rest.filterMap (fun j => d[j]?) := by
      simp only [List.filterMap_cons, List.getElem?_eq_getElem hi]
    rw [hr, hfm]
    exact List.perm_middle.trans
      ((ih'.cons d[i]).trans (perm_getElem_cons_eraseIdx d i hi).symm)

theorem filterMap_indexById_values {V : Type} (d : List (Row V))
    (hnd : (d.map Row.id).Nodup) :
    ∀ rows : List (Row V), (∀ r ∈ rows, r ∈ d) →
      ((rows.map Row.id).filterMap (indexById d)).filterMap
        (fun i => d[i]?) = rows := by
  intro rows
  induction rows with
  | nil => intro _; rfl
  | cons r rest ih =>
    intro hmem
    have hrm : r ∈ d := hmem r (List.mem_cons_self r rest)
    have hsome := indexById_isSome_of_mem d r hrm
    rcases hx : indexById d r.id with _ | i
    · rw [hx] at hsome; cases hsome
    · have hget : d[i]? = some r := indexById_getElem_of_mem d r i hnd hrm hx
      rw [List.map_cons]
      rw [List.filterMap_cons]
      simp only [hx]
      rw [List.filterMap_cons]
      simp only [hget]
      rw [ih (fun x hxm => hmem x (List.mem_cons_of_mem r hxm))]

theorem filterMap_indexById_nodup {V : Type} (d : List (Row V))
    (ids : List String) (hids : ids.Nodup) :
    (ids.filterMap (indexById d)).Nodup := by
  apply List.Nodup.filterMap ?_ hids
  intro a a' b hb hb'
  rw [Option.mem_def] at hb hb'
  have h1 := indexById_map_getElem d a b hb
  have h2 := indexById_map_getElem d a' b hb'
  rw [h1] at h2
  exact Option.some.inj h2

theorem removeRows_append_perm {V : Type} (data rows : List (Row V))
    (hnd : (data.map Row.id).Nodup)
    (hrows : (rows.map Row.id).Nodup)
    (hmem : ∀ r ∈ rows, r ∈ data) :
    (removeRows (rows.map Row.id) data ++ rows).Perm data := by
  simp only [removeRows]
  set idxs0 := (rows.map Row.id).filterMap (indexById data) with hidxs0
  set sorted := idxs0.insertionSort (· ≥ ·) with hsortdef
  have hperm : sorted.Perm idxs0 := List.perm_insertionSort _ _
  have hsort : sorted.Sorted (· ≥ ·) := List.sorted_insertionSort _ _
  have hnd0 : idxs0.Nodup := filterMap_indexById_nodup data _ hrows
  have hnds : sorted.Nodup := hperm.symm.nodup hnd0
  have hgt : sorted.Pairwise (· > ·) := sorted_ge_nodup_pairwise_gt sorted hsort hnds
  have hvalid : ∀ i ∈ sorted, i < data.length := by
    intro i hi
    have hm : i ∈ idxs0 := hperm.mem_iff.mp hi
    rcases List.mem_filterMap.mp hm with ⟨a, _, ha⟩
    exact indexById_lt_length data a i ha
  have h1 := removeIndicesDesc_perm sorted data hgt hvalid
  have h2 : (sorted.filterMap (fun i => data[i]?)).Perm
      (idxs0.filterMap (fun i => data[i]?)) := hperm.filterMap _
  have h3 : idxs0.filterMap (fun i => data[i]?) = rows :=
    filterMap_indexById_values data hnd rows hmem
  have h4 : (removeIndicesDesc data sorted ++ rows).Perm
      (removeIndicesDesc data sorted ++ sorted.filterMap (fun i => data[i]?)) := by
    apply List.Perm.append_left
    rw [← h3]
    exact h2.symm
  exact h4.trans h1

theorem rowsAdd_roundtrip_structEq {V : Type} (d rows : List (Row V)) (ts : Nat)
    (hnd : (d.map Row.id).Nodup) (hrows : (rows.map Row.id).Nodup)
    (hmem : ∀ r ∈ rows, r ∈ d) :
    StructEq ((mkRowsAddEntry rows ts).redo
      ((mkRowsAddEntry rows ts).undo d)) d := by
  show StructEq (removeRows (rows.map Row.id) d ++ rows) d
  exact structEq_of_perm _ d hnd (removeRows_append_perm d rows hnd hrows hmem)

theorem rowsDelete_roundtrip_structEq {V : Type} (d rows : List (Row V)) (ts : Nat)
    (hnd : (d.map Row.id).Nodup) (hrows : (rows.map Row.id).Nodup)
    (hdisj : ∀ a ∈ rows.map Row.id, a ∉ d.map Row.id) :
    StructEq ((mkRowsDeleteEntry rows ts).redo
      ((mkRowsDeleteEntry rows ts).undo d)) d := by
  show StructEq (removeRows (rows.map Row.id) (d ++ rows)) d
  have hnd' : ((d ++ rows).map Row.id).Nodup := by
    rw [List.map_append, List.nodup_append]
    exact ⟨hnd, hrows, fun a ha hb => hdisj a hb ha⟩
  have hmem' : ∀ r ∈ rows, r ∈ d ++ rows := fun r hr => List.mem_append_right d hr
  have h1 := removeRows_append_perm (d ++ rows) rows hnd' hrows hmem'
  have h2 : (removeRows (rows.map Row.id) (d ++ rows)).Perm d := by
    have hm := Multiset.coe_eq_coe.mpr h1
    rw [← Multiset.coe_add, ← Multiset.coe_add] at hm
    have hm' := add_right_cancel hm
    exact Multiset.coe_eq_coe.mp hm'
  exact structEq_of_perm _ d hnd h2

/-- C1: applying a Command's `undo` to the post-operation array and then its
`redo` to the result yields an array structurally equal — same collection of
row ids, same cell values per row — to the post-operation array.  The three
conjuncts cover the three tracked operations; the hypotheses say exactly
that the array is a genuine post-operation snapshot: row ids are unique, for
`cells_update` every tracked cell whose row still exists holds its
`newValue`, for `rows_add` the captured rows are present, and for
`rows_delete` the captured row ids are absent. -/
theorem roundtrip_undo_redo (V : Type) (d : List (Row V)) (ts : Nat) :
    (∀ updates : List (CellUpdate V),
      (d.map Row.id).Nodup →
      (∀ u ∈ updates, (indexById d u.rowId).isSome = true →
        cellAt d u.rowId u.columnId = some u.newValue) →
      StructEq ((mkCellsUpdateEntry updates ts).redo
        ((mkCellsUpdateEntry updates ts).undo d)) d) ∧
    (∀ rows : List (Row V),
      (d.map Row.id).Nodup → (rows.map Row.id).Nodup →
      (∀ r ∈ rows, r ∈ d) →
      StructEq ((mkRowsAddEntry rows ts).redo
        ((mkRowsAddEntry rows ts).undo d)) d) ∧
    (∀ rows : List (Row V),
      (d.map Row.id).Nodup → (rows.map Row.id).Nodup →
      (∀ a ∈ rows.map Row.id, a ∉ d.map Row.id) →
      StructEq ((mkRowsDeleteEntry rows ts).redo
        ((mkRowsDeleteEntry rows ts).undo d)) d) :=
  ⟨fun updates hnd hval => cells_roundtrip_structEq d updates ts hnd hval,
   fun rows hnd hrows hmem => rowsAdd_roundtrip_structEq d rows ts hnd hrows hmem,
   fun rows hnd hrows hdisj => rowsDelete_roundtrip_structEq d rows ts hnd hrows hdisj⟩

private def dWit : List (Row Nat) := [⟨"a", [("x", 1)]⟩, ⟨"b", [("y", 2)]⟩]

/-- Witness for `roundtrip_undo_redo` on a two-row grid: one collapsed cell
edit, one row addition, one row deletion. -/
theorem roundtrip_undo_redo_witness :
    StructEq ((mkCellsUpdateEntry [(⟨"a", "x", 0, 1⟩ : CellUpdate Nat)] 0).redo
      ((mkCellsUpdateEntry [(⟨"a", "x", 0, 1⟩ : CellUpdate Nat)] 0).undo dWit)) dWit ∧
    StructEq ((mkRowsAddEntry [(⟨"b", [("y", 2)]⟩ : Row Nat)] 0).redo
      ((mkRowsAddEntry [(⟨"b", [("y", 2)]⟩ : Row Nat)] 0).undo dWit)) dWit ∧
    StructEq ((mkRowsDeleteEntry [(⟨"c", [("z", 3)]⟩ : Row Nat)] 0).redo
      ((mkRowsDeleteEntry [(⟨"c", [("z", 3)]⟩ : Row Nat)] 0).undo dWit)) dWit :=
  ⟨(roundtrip_undo_redo Nat dWit 0).1 [⟨"a", "x", 0, 1⟩] (by decide) (by decide),
   (roundtrip_undo_redo Nat dWit 0).2.1 [⟨"b", [("y", 2)]⟩]
     (by decide) (by decide) (by decide),
   (roundtrip_undo_redo Nat dWit 0).2.2 [⟨"c", [("z", 3)]⟩]
     (by decide) (by decide) (by decide)⟩

end DataGridUndoRedo
